import Mathlib

/-!
Shallow embedding of the foam_game board model (src/tile.rs, src/item.rs,
src/editing_model.rs, src/game_ui.rs, src/editing.rs, src/playing.rs) and
proofs about the tile validity predicate, the directional permission
predicate, the board-playability check with its portal cross-linking side
effect, the tile editing operations, the input-to-direction translation,
and the runtime playing-board construction.

Rust `usize` is modelled as `Nat`, `isize` as `Int` (all the arithmetic
involved stays far from the machine-word bounds: bounce values are kept in
[-1, 1] by guards and portal letters in 'A'..'Z').  `Vec<Vec<_>>` boards
are `List (List _)`; a panicking index write is modelled as an
`Option`-returning operation (`none` = panic).
-/

/-! ## Directions (src/game_ui.rs) -/

inductive DirectionKey where
  | Up
  | Right
  | Down
  | Left
  | UpRight
  | DownRight
  | DownLeft
  | UpLeft
  | None
deriving DecidableEq

namespace DirectionKey

def is_cardinal (d : DirectionKey) : Bool :=
  match d with
  | .Up | .Right | .Down | .Left => true
  | _ => false

def is_none (d : DirectionKey) : Bool :=
  match d with
  | .None => true
  | _ => false

end DirectionKey

structure PlayerMovementData where
  direction : DirectionKey
  move_speed : Nat
  use_tile : Bool
deriving DecidableEq

/-- `movement_data_from_bools` from src/game_ui.rs. -/
def movement_data_from_bools (up right down left : Bool) (move_speed : Nat)
    (use_tile : Bool) : Option PlayerMovementData :=
  let direction :=
    match up, right, down, left with
    | true, false, false, false => DirectionKey.Up
    | false, true, false, false => DirectionKey.Right
    | false, false, true, false => DirectionKey.Down
    | false, false, false, true => DirectionKey.Left
    | true, true, false, false => DirectionKey.UpRight
    | false, true, true, false => DirectionKey.DownRight
    | false, false, true, true => DirectionKey.DownLeft
    | true, false, false, true => DirectionKey.UpLeft
    | _, _, _, _ => DirectionKey.None
  if direction = DirectionKey.None ∧ use_tile = false then
    none
  else
    some { direction := direction, move_speed := move_speed, use_tile := use_tile }

/-- `direction_key_into_bools` from src/game_ui.rs; returns (up, right, down, left). -/
def direction_key_into_bools (d : DirectionKey) : Bool × Bool × Bool × Bool :=
  match d with
  | .Up => (true, false, false, false)
  | .Right => (false, true, false, false)
  | .Down => (false, false, true, false)
  | .Left => (false, false, false, true)
  | .UpRight => (true, true, false, false)
  | .DownRight => (false, true, true, false)
  | .DownLeft => (false, false, true, true)
  | .UpLeft => (true, false, false, true)
  | .None => (false, false, false, false)

/-! ## Tiles (src/tile.rs) -/

structure CardinalDirectionsAllowed where
  up : Bool
  right : Bool
  down : Bool
  left : Bool
deriving DecidableEq

structure DiagonalDirectionsAllowed where
  up_right : Bool
  down_right : Bool
  down_left : Bool
  up_left : Bool
deriving DecidableEq

inductive Tile where
  | Empty
  | MoveCardinal (dirs : CardinalDirectionsAllowed)
  | MoveDiagonal (dirs : DiagonalDirectionsAllowed)
  | Cloud (dirs : CardinalDirectionsAllowed)
  | Bounce (val : Int)
  | Portal (c : Char) (link : Nat × Nat)
  | Water
  | Ice
  | Door
  | Wall
  | StartSpace
  | EndSpace
deriving DecidableEq

namespace Tile

/-- `Tile::is_valid` from src/tile.rs. -/
def is_valid (t : Tile) : Bool :=
  match t with
  | .MoveCardinal directions | .Cloud directions =>
      !(!directions.up && !directions.down && !directions.left && !directions.right)
  | .MoveDiagonal directions =>
      !(!directions.up_right && !directions.down_right
          && !directions.down_left && !directions.up_left)
  | .Empty | .Bounce _ | .Portal _ _ | .Water | .Ice | .Door | .Wall
  | .StartSpace | .EndSpace => true

/-- `Tile::can_move_in_direction` from src/tile.rs. -/
def can_move_in_direction (t : Tile) (direction : DirectionKey) : Bool :=
  match t with
  | .MoveCardinal directions =>
      match direction with
      | .Up => directions.up
      | .Right => directions.right
      | .Down => directions.down
      | .Left => directions.left
      | _ => false
  | .Cloud directions =>
      match direction with
      | .Up => directions.up
      | .Right => directions.right
      | .Down => directions.down
      | .Left => directions.left
      | _ => false
  | .MoveDiagonal directions =>
      match direction with
      | .UpRight => directions.up_right
      | .DownRight => directions.down_right
      | .DownLeft => directions.down_left
      | .UpLeft => directions.up_left
      | _ => false
  | .Portal _ _ =>
      match direction with
      | .Up | .Right | .Down | .Left | .None => true
      | _ => false
  | _ =>
      match direction with
      | .Up | .Right | .Down | .Left => true
      | _ => false

end Tile

/-! ## Key items (src/item.rs) -/

inductive KeyOnGet where
  | FinishKey
deriving DecidableEq

inductive KeyOnUse where
  | TeleportKey (c : Char)
deriving DecidableEq

inductive KeyOnMovement where
  | Cardinal
  | Diagonal
deriving DecidableEq

inductive KeyOnWall where
  | DoorKey (c : Char)
  | Wall
deriving DecidableEq

inductive KeyOnBounce where
  | BounceLess
  | BounceMore
  | BounceChange
deriving DecidableEq

inductive KeyOnEmpty where
  | CloudKey
deriving DecidableEq

inductive KeyOnEquip where
  | OnMovement (k : KeyOnMovement)
  | OnWall (k : KeyOnWall)
  | OnBounce (k : KeyOnBounce)
  | OnEmpty (k : KeyOnEmpty)
deriving DecidableEq

inductive KeyItem where
  | None
  | OnGet (k : KeyOnGet)
  | OnUse (k : KeyOnUse)
  | OnEquip (k : KeyOnEquip)
deriving DecidableEq

/-- Modelled from the spec: `TileData` is declared in src/tile.rs of the
repository but its definition is not present in the provided sources (only
its uses in src/editing_model.rs are).  The spec describes each board cell
as "holding a Tile (optionally paired with a key item)", and
src/editing_model.rs accesses the fields `tile` and `key`. -/
structure TileData where
  tile : Tile
  key : KeyItem
deriving DecidableEq

/-! ## Board cell access (Vec<Vec<TileData>> indexing) -/

/-- In-place update of the `n`-th element of a list (identity when out of
bounds); used to model `vec[i] = x` style writes whose index is known to be
in bounds at the call site. -/
def modifyAt {α : Type} (f : α → α) : Nat → List α → List α
  | _, [] => []
  | 0, a :: as => f a :: as
  | n + 1, a :: as => a :: modifyAt f n as

abbrev Board := List (List TileData)

/-- `self.board[p.0][p.1]` as a read (`none` when out of bounds). -/
def getCell (b : Board) (p : Nat × Nat) : Option TileData :=
  (b.get? p.1).bind fun row => row.get? p.2

/-- `self.board[p.0][p.1].tile = t` (no-op when out of bounds; the
playability linking only writes at scanned, hence in-bounds, positions). -/
def setTileAt (b : Board) (p : Nat × Nat) (t : Tile) : Board :=
  modifyAt (fun row => modifyAt (fun td => { td with tile := t }) p.2 row) p.1 b

/-- `self.board[p.0][p.1].tile = t` where the indexing may panic:
`none` models the panic. -/
def writeTile (b : Board) (p : Nat × Nat) (t : Tile) : Option Board :=
  match getCell b p with
  | some _ => some (setTileAt b p t)
  | none => none

/-! ## Editing model (src/editing_model.rs) -/

structure EditingModel where
  board : Board
  board_size : Nat × Nat
  start_pos : Option (Nat × Nat)
  end_pos : Option (Nat × Nat)
deriving DecidableEq

/-- The pattern projection of `if let Tile::Portal(c, _) = tile`: the
portal letter of a tile, when it has one. -/
def portalLetter : Tile → Option Char
  | Tile.Portal ch _ => some ch
  | _ => none

/-- One row of the portal-collection scan of `board_is_playable`:
`(letter, (row, col))` for every `Portal` cell, columns in order starting
at index `i` of row `r`. -/
def rowPortals (r : Nat) : Nat → List TileData → List (Char × (Nat × Nat))
  | _, [] => []
  | c, td :: rest =>
      match portalLetter td.tile with
      | some ch => (ch, (r, c)) :: rowPortals r (c + 1) rest
      | none => rowPortals r (c + 1) rest

/-- The portal-collection scan over the whole board, rows starting at
index `r`. -/
def collectAux : Nat → Board → List (Char × (Nat × Nat))
  | _, [] => []
  | r, row :: rest => rowPortals r 0 row ++ collectAux (r + 1) rest

/-- Scan of `board_is_playable` that fills `portal_positions`: every
portal letter paired with the coordinates it occurs at, in row-major
order. -/
def collectPortals (b : Board) : List (Char × (Nat × Nat)) :=
  collectAux 0 b

/-- `portal_positions[ch]`: the positions collected for letter `ch`, in
scan order (the insertion order of the Rust HashMap entry's Vec). -/
def positionsOf (portals : List (Char × (Nat × Nat))) (ch : Char) : List (Nat × Nat) :=
  portals.filterMap fun x => if x.1 = ch then some x.2 else none

/-- The per-cell validity scan of `board_is_playable`: no invalid tile
anywhere. -/
def allValid (b : Board) : Bool :=
  b.all fun row => row.all fun td => td.tile.is_valid

/-- The linking step of `board_is_playable` for one letter: cross-write the
two collected positions (the Rust code indexes `positions[0]` and
`positions[1]`, reachable only when every letter has exactly two). -/
def linkLetter (portals : List (Char × (Nat × Nat))) (ch : Char) (b : Board) : Board :=
  match positionsOf portals ch with
  | [p0, p1] => setTileAt (setTileAt b p0 (Tile.Portal ch p1)) p1 (Tile.Portal ch p0)
  | _ => b

/-- The linking loop of `board_is_playable` over all collected letters.
The Rust HashMap iteration order is unspecified, but distinct letters
write to disjoint cells, so any enumeration of the letters yields the same
board; we use first-occurrence scan order deduplicated. -/
def linkAll (portals : List (Char × (Nat × Nat))) (letters : List Char) (b : Board) : Board :=
  letters.foldl (fun b ch => linkLetter portals ch b) b

/-- The letters occurring in the collected portal list, without
duplicates (the key set of the Rust HashMap). -/
def portalLetters (portals : List (Char × (Nat × Nat))) : List Char :=
  (portals.map Prod.fst).dedup

namespace EditingModel

/-- `EditingModel::board_is_playable` from src/editing_model.rs.  The Rust
method takes `&mut self` and returns `bool`; here it returns the boolean
together with the updated model. -/
def board_is_playable (m : EditingModel) : Bool × EditingModel :=
  if !(m.start_pos.isSome && m.end_pos.isSome) then (false, m)
  else if !allValid m.board then (false, m)
  else if !((portalLetters (collectPortals m.board)).all fun ch =>
      (positionsOf (collectPortals m.board) ch).length == 2) then (false, m)
  else
    (true,
      { m with
        board :=
          linkAll (collectPortals m.board) (portalLetters (collectPortals m.board))
            m.board })

/-- `EditingModel::set_tile` from src/editing_model.rs.  The body writes
through panicking indexing (`self.board[pos.0][pos.1]`), so the result is
`none` when a write goes out of bounds (= the Rust call panics). -/
def set_tile (m : EditingModel) (pos : Nat × Nat) (tile : Tile) : Option EditingModel := do
  let m1 ←
    if tile = Tile.StartSpace then
      match m.start_pos with
      | some old => do
          let b ← writeTile m.board old Tile.Empty
          pure { m with board := b, start_pos := some pos }
      | none => pure { m with start_pos := some pos }
    else if tile = Tile.EndSpace then
      match m.end_pos with
      | some old => do
          let b ← writeTile m.board old Tile.Empty
          pure { m with board := b, end_pos := some pos }
      | none => pure { m with end_pos := some pos }
    else
      pure m
  let b ← writeTile m1.board pos tile
  pure { m1 with board := b }

/-- Portal-letter increment of `edit_tile`: `'A'..='Y'` goes up one,
everything else (`'Z'` and the unreachable catch-all) wraps to `'A'`. -/
def nextPortalChar (c : Char) : Char :=
  if 'A' ≤ c ∧ c ≤ 'Y' then Char.ofNat (c.toNat + 1) else 'A'

/-- Portal-letter decrement of `edit_tile`: `'B'..='Z'` goes down one,
everything else (`'A'` and the unreachable catch-all) wraps to `'Z'`. -/
def prevPortalChar (c : Char) : Char :=
  if 'B' ≤ c ∧ c ≤ 'Z' then Char.ofNat (c.toNat - 1) else 'Z'

/-- The toggled copy of a cardinal direction set in `edit_tile`: each
pressed key flips the matching direction. -/
def toggleCardinal (ds : CardinalDirectionsAllowed)
    (key_up key_right key_down key_left : Bool) : CardinalDirectionsAllowed :=
  { up := if key_up then !ds.up else ds.up
    down := if key_down then !ds.down else ds.down
    left := if key_left then !ds.left else ds.left
    right := if key_right then !ds.right else ds.right }

/-- The `new_dirs` selection of the `MoveDiagonal` branch of `edit_tile`:
the first matching two-key chord picks the diagonal to flip; `none` when no
chord is pressed. -/
def toggleDiagonal (dirs : DiagonalDirectionsAllowed)
    (key_up key_right key_down key_left : Bool) : Option DiagonalDirectionsAllowed :=
  if key_up && key_right then some { dirs with up_right := !dirs.up_right }
  else if key_down && key_right then some { dirs with down_right := !dirs.down_right }
  else if key_down && key_left then some { dirs with down_left := !dirs.down_left }
  else if key_up && key_left then some { dirs with up_left := !dirs.up_left }
  else none

/-- `EditingModel::edit_tile` from src/editing_model.rs (it accesses the
cell with `get_mut`, so an out-of-bounds position is a no-op). -/
def edit_tile (m : EditingModel) (pos : Nat × Nat) (keypress : PlayerMovementData) :
    EditingModel :=
  let (key_up, key_right, key_down, key_left) :=
    direction_key_into_bools keypress.direction
  match getCell m.board pos with
  | none => m
  | some td =>
      match td.tile with
      | Tile.MoveCardinal directions =>
          let new_directions := toggleCardinal directions key_up key_right key_down key_left
          let test_tile := Tile.MoveCardinal new_directions
          if test_tile.is_valid then { m with board := setTileAt m.board pos test_tile }
          else m
      | Tile.Cloud directions =>
          let new_directions := toggleCardinal directions key_up key_right key_down key_left
          let test_tile := Tile.Cloud new_directions
          if test_tile.is_valid then { m with board := setTileAt m.board pos test_tile }
          else m
      | Tile.MoveDiagonal dirs =>
          let new_dirs := toggleDiagonal dirs key_up key_right key_down key_left
          match new_dirs with
          | some nd =>
              let test_tile := Tile.MoveDiagonal nd
              if test_tile.is_valid then { m with board := setTileAt m.board pos test_tile }
              else m
          | none => m
      | Tile.Bounce val =>
          if key_up && val < 1 then
            { m with board := setTileAt m.board pos (Tile.Bounce (val + 1)) }
          else if key_down && val > -1 then
            { m with board := setTileAt m.board pos (Tile.Bounce (val - 1)) }
          else m
      | Tile.Portal c link =>
          if key_up then
            { m with board := setTileAt m.board pos (Tile.Portal (nextPortalChar c) link) }
          else if key_down then
            { m with board := setTileAt m.board pos (Tile.Portal (prevPortalChar c) link) }
          else m
      | _ => m

end EditingModel

/-! ## Editing board and runtime playing board (src/editing.rs, src/playing.rs) -/

structure EditingBoard where
  selected_type : Tile
  selected_tile_pos : Option (Nat × Nat)
  editing_board : List (List Tile)
  start_pos : Option (Nat × Nat)
  end_pos : Option (Nat × Nat)
deriving DecidableEq

namespace EditingBoard

def get_board (eb : EditingBoard) : List (List Tile) := eb.editing_board

def get_start_pos (eb : EditingBoard) : Option (Nat × Nat) := eb.start_pos

def get_end_pos (eb : EditingBoard) : Option (Nat × Nat) := eb.end_pos

end EditingBoard

structure PlayingBoard where
  playing_board : List (List Tile)
  start_pos : Nat × Nat
  end_pos : Nat × Nat
  board_size : Nat × Nat
  player_pos : Nat × Nat
  previous_player_pos : Nat × Nat
deriving DecidableEq

namespace PlayingBoard

/-- `PlayingBoard::new` from src/playing.rs.  `playing_board[0]` is a
panicking index; reading the first row with `head?` makes the result
`none` on an empty grid, matching the `?` early returns on a missing
start/end position in failure shape. -/
def new (editing_board : EditingBoard) : Option PlayingBoard := do
  let playing_board := editing_board.get_board
  let start_pos ← editing_board.get_start_pos
  let first_row ← playing_board.head?
  let board_size := (playing_board.length, first_row.length)
  let end_pos ← editing_board.get_end_pos
  let player_pos := start_pos
  let previous_player_pos := player_pos
  some { playing_board := playing_board
         start_pos := start_pos
         end_pos := end_pos
         board_size := board_size
         player_pos := player_pos
         previous_player_pos := previous_player_pos }

/-- `PlayingBoard::pos_is_valid` from src/playing.rs. -/
def pos_is_valid (pb : PlayingBoard) (x y : Int) : Bool :=
  decide (x < (pb.board_size.1 : Int)) && decide (y < (pb.board_size.2 : Int))

end PlayingBoard

/-! ## Spec-side definitions (written from the spec's words, for the
refinement-style claims that compare code behaviour against them) -/

/-- Direction is one of the four diagonals (spec wording "the direction is
diagonal"). -/
def isDiagonalSpec (d : DirectionKey) : Bool :=
  match d with
  | .UpRight | .DownRight | .DownLeft | .UpLeft => true
  | _ => false

/-- The "matching bit" of a cardinal direction set for a direction (spec
wording for `MoveCardinal`/`Cloud`). -/
def cardinalBitSpec (ds : CardinalDirectionsAllowed) (d : DirectionKey) : Bool :=
  match d with
  | .Up => ds.up
  | .Right => ds.right
  | .Down => ds.down
  | .Left => ds.left
  | _ => false

/-- The "matching bit" of a diagonal direction set for a direction (spec
wording for `MoveDiagonal`). -/
def diagonalBitSpec (ds : DiagonalDirectionsAllowed) (d : DirectionKey) : Bool :=
  match d with
  | .UpRight => ds.up_right
  | .DownRight => ds.down_right
  | .DownLeft => ds.down_left
  | .UpLeft => ds.up_left
  | _ => false

/-- The directional-permission contract exactly as the claim states it:
for `MoveCardinal` and `Cloud` true iff the direction is cardinal and the
matching bit is set; for `MoveDiagonal` true iff the direction is diagonal
and the matching bit is set; for `Portal` true for any cardinal direction
and for the "none" sentinel; for every other tile true exactly for the
four cardinal directions. -/
def canMoveSpec (t : Tile) (d : DirectionKey) : Bool :=
  match t with
  | .MoveCardinal ds => d.is_cardinal && cardinalBitSpec ds d
  | .Cloud ds => d.is_cardinal && cardinalBitSpec ds d
  | .MoveDiagonal ds => isDiagonalSpec d && diagonalBitSpec ds d
  | .Portal _ _ => d.is_cardinal || d.is_none
  | _ => d.is_cardinal

/-- Modelled from the spec: the runtime board the spec describes, "a copy
of the validated board padded with one ring of `Empty` cells on all four
sides" (no such padding code exists in src/playing.rs; this definition
exists only to compare the code's behaviour against the claim). -/
def paddedBoardSpec (b : List (List Tile)) : List (List Tile) :=
  let w := (b.head?.getD []).length
  [List.replicate (w + 2) Tile.Empty]
    ++ b.map (fun row => [Tile.Empty] ++ row ++ [Tile.Empty])
    ++ [List.replicate (w + 2) Tile.Empty]

/-! ## Concrete boards and models used in the witness and
counterexample evaluations -/

/-- Concrete 1x1 editing board with start and end set, used to exhibit the
behaviour of `PlayingBoard::new`. -/
def c8Eb : EditingBoard :=
  { selected_type := Tile.Empty
    selected_tile_pos := none
    editing_board := [[Tile.Wall]]
    start_pos := some (0, 0)
    end_pos := some (0, 0) }

/-- Concrete 2x2 playing board used to exhibit the behaviour of
`pos_is_valid`. -/
def c10Pb : PlayingBoard :=
  { playing_board := [[Tile.Empty, Tile.Empty], [Tile.Empty, Tile.Empty]]
    start_pos := (0, 0)
    end_pos := (1, 1)
    board_size := (2, 2)
    player_pos := (0, 0)
    previous_player_pos := (0, 0) }

/-- Concrete 1x1 editing model used to exhibit the out-of-bounds behaviour
of `set_tile`. -/
def c5Model : EditingModel :=
  { board := [[{ tile := Tile.Empty, key := KeyItem.None }]]
    board_size := (1, 1)
    start_pos := none
    end_pos := none }

/-- Concrete editing model used to evaluate `edit_tile`: a single
`MoveCardinal` tile with only `up` enabled. -/
def c6Model : EditingModel :=
  { board := [[{ tile := Tile.MoveCardinal
                   { up := true, right := false, down := false, left := false }
               , key := KeyItem.None }]]
    board_size := (1, 1)
    start_pos := none
    end_pos := none }

/-- Concrete editing model with one matched portal pair, start and end
set: `board_is_playable` returns true on it and cross-links the pair. -/
def c1Model : EditingModel :=
  { board := [[{ tile := Tile.Portal 'A' (0, 0), key := KeyItem.None },
               { tile := Tile.Portal 'A' (0, 0), key := KeyItem.None }]]
    board_size := (1, 2)
    start_pos := some (0, 0)
    end_pos := some (0, 1) }

/-- Concrete editing model whose portal letter A occurs exactly once,
with valid tiles and both start and end positions set. -/
def c2Model : EditingModel :=
  { board := [[{ tile := Tile.Portal 'A' (0, 0), key := KeyItem.None },
               { tile := Tile.Empty, key := KeyItem.None }]]
    board_size := (1, 2)
    start_pos := some (0, 0)
    end_pos := some (0, 1) }

/-- Concrete editing model with one matched portal pair used for the
idempotence witness. -/
def c3Model : EditingModel :=
  { board := [[{ tile := Tile.Portal 'B' (0, 0), key := KeyItem.None },
               { tile := Tile.Portal 'B' (0, 0), key := KeyItem.None }]]
    board_size := (1, 2)
    start_pos := some (0, 0)
    end_pos := some (0, 1) }

/-! ## C7 -/

/-- C7: `Tile::can_move_in_direction` implements the directional-permission
contract: for `MoveCardinal` and `Cloud` it returns true iff the direction
is cardinal and the matching bit is set; for `MoveDiagonal`, true iff the
direction is diagonal and the matching bit is set; for `Portal`, true for
any cardinal direction and for the "none" sentinel; for every other tile,
true exactly for the four cardinal directions. -/
theorem can_move_in_direction_matches_directional_contract
    (t : Tile) (d : DirectionKey) :
    t.can_move_in_direction d = canMoveSpec t d := by
  cases t <;> cases d <;> rfl

/-! ## C4 -/

/-- C4 counterexample: the claim says `is_valid` is false for a `Bounce`
tile whose value lies outside [-1, 1]; the code returns true for
`Bounce(5)` (every `Bounce` is in the always-true arm of the match). -/
theorem is_valid_true_on_out_of_range_bounce :
    Tile.is_valid (Tile.Bounce 5) = true ∧ ¬((-1 : Int) ≤ 5 ∧ (5 : Int) ≤ 1) := by
  decide

/-- C4 (amended): `Tile::is_valid` returns false exactly when the tile is
a `MoveCardinal` or `Cloud` with all four direction bits clear, or a
`MoveDiagonal` with all four diagonal bits clear; it returns true for
every other tile, including every `Bounce` value. -/
theorem is_valid_false_iff_directionless_movement_tile (t : Tile) :
    t.is_valid = false ↔
      ((∃ ds : CardinalDirectionsAllowed,
          (t = Tile.MoveCardinal ds ∨ t = Tile.Cloud ds) ∧
          ds.up = false ∧ ds.down = false ∧ ds.left = false ∧ ds.right = false) ∨
       (∃ ds : DiagonalDirectionsAllowed,
          t = Tile.MoveDiagonal ds ∧
          ds.up_right = false ∧ ds.down_right = false ∧
          ds.down_left = false ∧ ds.up_left = false)) := by
  cases t <;> simp [Tile.is_valid] <;>
    rename_i ds <;> cases ds <;> simp <;> tauto

/-! ## C9 -/

/-- C9: whenever two opposite direction keys are both set (up with down,
or left with right), `movement_data_from_bools` produces the "no
direction" sentinel: it returns `none` when `use_tile` is false and
`some` data with direction `DirectionKey.None` when `use_tile` is true. -/
theorem opposite_keys_give_none_direction
    (up right down left : Bool) (move_speed : Nat) (use_tile : Bool)
    (h : (up = true ∧ down = true) ∨ (left = true ∧ right = true)) :
    movement_data_from_bools up right down left move_speed use_tile =
      if use_tile then
        some { direction := DirectionKey.None, move_speed := move_speed,
               use_tile := use_tile }
      else none := by
  cases up <;> cases right <;> cases down <;> cases left <;>
    cases use_tile <;> simp_all [movement_data_from_bools]

/-- C9 witness: concrete evaluation of the theorem at up = down = true,
left = right = false, speed 1, use_tile on both values. -/
theorem opposite_keys_give_none_direction_witness :
    movement_data_from_bools true false true false 1 true =
      some { direction := DirectionKey.None, move_speed := 1, use_tile := true } :=
  (opposite_keys_give_none_direction true false true false 1 true
    (Or.inl ⟨rfl, rfl⟩)).trans (by decide)

/-! ## C8 -/


/-- C8 counterexample: on a 1x1 validated board with start and end set,
`PlayingBoard::new` does not produce a board padded with a ring of `Empty`
cells, nor a start coordinate shifted by the padding offset: it copies the
grid verbatim and keeps the start at (0, 0). -/
theorem playing_board_new_not_padded :
    ¬ ∃ pb : PlayingBoard,
        PlayingBoard.new c8Eb = some pb ∧
        pb.playing_board = paddedBoardSpec c8Eb.editing_board ∧
        pb.start_pos = (0 + 1, 0 + 1) := by
  rintro ⟨pb, h1, h2, -⟩
  have hnew : PlayingBoard.new c8Eb =
      some { playing_board := [[Tile.Wall]], start_pos := (0, 0), end_pos := (0, 0),
             board_size := (1, 1), player_pos := (0, 0),
             previous_player_pos := (0, 0) } := rfl
  rw [hnew] at h1
  injection h1 with h1
  subst h1
  exact absurd h2 (by decide)

/-- C8 (amended): for every editing board with a start position, an end
position and a nonempty grid, `PlayingBoard::new` produces a verbatim
(unpadded) copy of the grid, with the start, player and previous-player
coordinates all equal to the editing board's start position (no padding
offset is applied) and the end position copied verbatim. -/
theorem playing_board_new_copies_unpadded
    (eb : EditingBoard) (s e : Nat × Nat) (fr : List Tile)
    (hs : eb.start_pos = some s) (he : eb.end_pos = some e)
    (hfr : eb.editing_board.head? = some fr) :
    PlayingBoard.new eb =
      some { playing_board := eb.editing_board, start_pos := s, end_pos := e,
             board_size := (eb.editing_board.length, fr.length),
             player_pos := s, previous_player_pos := s } := by
  simp [PlayingBoard.new, EditingBoard.get_board, EditingBoard.get_start_pos,
    EditingBoard.get_end_pos, hs, he, hfr]

/-- C8 witness: the amended theorem evaluated on the concrete 1x1 board. -/
theorem playing_board_new_copies_unpadded_witness :
    PlayingBoard.new c8Eb =
      some { playing_board := [[Tile.Wall]], start_pos := (0, 0), end_pos := (0, 0),
             board_size := (1, 1), player_pos := (0, 0),
             previous_player_pos := (0, 0) } :=
  playing_board_new_copies_unpadded c8Eb (0, 0) (0, 0) [Tile.Wall] rfl rfl rfl

/-! ## C10 -/


/-- C10 counterexample: the claim says `pos_is_valid` returns true for
every position with negative x or negative y; on a 2x2 board the position
(-1, 5) has negative x yet `pos_is_valid` returns false (the y upper-bound
check still fails). -/
theorem pos_is_valid_false_with_negative_x :
    (-1 : Int) < 0 ∧ c10Pb.pos_is_valid (-1) 5 = false := by
  decide

/-- C10 (amended): `pos_is_valid` checks only the upper bounds of the
board: it returns true iff x is below the row count and y below the column
count, with no lower-bound check, so every position with both coordinates
negative passes and the check does not certify that a candidate position
lies on the board. -/
theorem pos_is_valid_checks_only_upper_bounds (pb : PlayingBoard) (x y : Int) :
    (pb.pos_is_valid x y = true ↔
      x < (pb.board_size.1 : Int) ∧ y < (pb.board_size.2 : Int)) ∧
    (x < 0 → y < 0 → pb.pos_is_valid x y = true) := by
  constructor
  · simp [PlayingBoard.pos_is_valid]
  · intro hx hy
    simp only [PlayingBoard.pos_is_valid, Bool.and_eq_true, decide_eq_true_eq]
    exact ⟨lt_of_lt_of_le hx (Int.natCast_nonneg _),
           lt_of_lt_of_le hy (Int.natCast_nonneg _)⟩

/-- C10 witness: the amended theorem evaluated on the concrete 2x2 board
at the all-negative position (-3, -7). -/
theorem pos_is_valid_checks_only_upper_bounds_witness :
    c10Pb.pos_is_valid (-3) (-7) = true :=
  (pos_is_valid_checks_only_upper_bounds c10Pb (-3) (-7)).2 (by decide) (by decide)

/-! ## Lemmas about cell reads and writes -/

theorem getElem?_modifyAt {α : Type} (f : α → α) (n m : Nat) (l : List α) :
    (modifyAt f n l)[m]? = if m = n then (l[m]?).map f else l[m]? := by
  induction l generalizing n m with
  | nil => simp [modifyAt]
  | cons a as ih =>
      cases n with
      | zero =>
          cases m with
          | zero => simp [modifyAt]
          | succ m => simp [modifyAt]
      | succ n =>
          cases m with
          | zero => simp [modifyAt]
          | succ m => simp [modifyAt, ih]

theorem getCell_setTileAt (b : Board) (p q : Nat × Nat) (t : Tile) :
    getCell (setTileAt b p t) q =
      if q = p then (getCell b q).map (fun td => { td with tile := t })
      else getCell b q := by
  obtain ⟨p1, p2⟩ := p
  obtain ⟨q1, q2⟩ := q
  simp only [getCell, setTileAt, List.get?_eq_getElem?, getElem?_modifyAt]
  by_cases h1 : q1 = p1
  · subst h1
    cases hrow : b[q1]? with
    | none => simp [hrow, Prod.ext_iff]
    | some row =>
        simp only [if_pos rfl, hrow, Option.map_some', Option.some_bind,
          getElem?_modifyAt]
        by_cases h2 : q2 = p2
        · subst h2; simp [Prod.ext_iff, getElem?_modifyAt]
        · simp [Prod.ext_iff, h2, getElem?_modifyAt]
  · simp [Prod.ext_iff, h1]

theorem getCell_setTileAt_self (b : Board) (p : Nat × Nat) (t : Tile) :
    getCell (setTileAt b p t) p = (getCell b p).map (fun td => { td with tile := t }) := by
  rw [getCell_setTileAt]; simp

theorem getCell_setTileAt_ne (b : Board) (p q : Nat × Nat) (t : Tile) (h : q ≠ p) :
    getCell (setTileAt b p t) q = getCell b q := by
  rw [getCell_setTileAt, if_neg h]

theorem getCell_setTileAt_none (b : Board) (p q : Nat × Nat) (t : Tile)
    (h : getCell b q = none) : getCell (setTileAt b p t) q = none := by
  rw [getCell_setTileAt]
  split <;> simp [h]

theorem writeTile_eq_none_of_getCell_none (b : Board) (p : Nat × Nat) (t : Tile)
    (h : getCell b p = none) : writeTile b p t = none := by
  simp [writeTile, h]

theorem writeTile_eq_some_iff (b : Board) (p : Nat × Nat) (t : Tile) (b' : Board) :
    writeTile b p t = some b' ↔ (getCell b p).isSome ∧ b' = setTileAt b p t := by
  unfold writeTile
  cases getCell b p <;> simp [eq_comm]

/-! ## C5 -/

/-- C5 (amended): calling `set_tile` with a position outside the grid
bounds is not a silent no-op: the unchecked write
`self.board[pos.0][pos.1].tile = tile` panics, so the call never returns
normally (modelled as `none`). -/
theorem set_tile_out_of_bounds_panics (m : EditingModel) (pos : Nat × Nat) (t : Tile)
    (h : getCell m.board pos = none) : m.set_tile pos t = none := by
  unfold EditingModel.set_tile
  by_cases ht : t = Tile.StartSpace
  · rw [if_pos ht]
    cases hsp : m.start_pos with
    | none => simp [hsp, writeTile_eq_none_of_getCell_none _ _ _ h]
    | some old =>
        cases hw : writeTile m.board old Tile.Empty with
        | none => simp [hsp, hw]
        | some b1 =>
            obtain ⟨-, rfl⟩ := (writeTile_eq_some_iff _ _ _ _).1 hw
            simp [hsp, hw, writeTile_eq_none_of_getCell_none _ _ _
              (getCell_setTileAt_none _ _ _ _ h)]
  · rw [if_neg ht]
    by_cases ht2 : t = Tile.EndSpace
    · rw [if_pos ht2]
      cases hep : m.end_pos with
      | none => simp [hep, writeTile_eq_none_of_getCell_none _ _ _ h]
      | some old =>
          cases hw : writeTile m.board old Tile.Empty with
          | none => simp [hep, hw]
          | some b1 =>
              obtain ⟨-, rfl⟩ := (writeTile_eq_some_iff _ _ _ _).1 hw
              simp [hep, hw, writeTile_eq_none_of_getCell_none _ _ _
                (getCell_setTileAt_none _ _ _ _ h)]
    · rw [if_neg ht2]
      simp [writeTile_eq_none_of_getCell_none _ _ _ h]


/-- C5 counterexample: on a 1x1 board, `set_tile` at the out-of-bounds
position (0, 1) does not return with the model unchanged as the claim
states; the out-of-bounds write fails (the Rust code panics). -/
theorem set_tile_out_of_bounds_not_silent :
    getCell c5Model.board (0, 1) = none ∧
    c5Model.set_tile (0, 1) Tile.Wall = none := by
  decide

/-- C5 witness: the amended theorem evaluated on the concrete 1x1 model at
position (3, 0). -/
theorem set_tile_out_of_bounds_panics_witness :
    c5Model.set_tile (3, 0) Tile.StartSpace = none :=
  set_tile_out_of_bounds_panics c5Model (3, 0) Tile.StartSpace (by decide)

/-! ## C6 -/

theorem direction_key_into_bools_no_opposite (d : DirectionKey)
    (ku kr kd kl : Bool) (h : direction_key_into_bools d = (ku, kr, kd, kl)) :
    ¬(ku = true ∧ kd = true) := by
  intro hud
  cases d <;> simp_all [direction_key_into_bools]

/-- C6: `edit_tile` never persists an invalid tile: at every in-bounds
position whose tile is valid, the tile after `edit_tile` is still valid; a
`Bounce` value within [-1, 1] stays within [-1, 1]; and a rejected edit
leaves the cell unchanged: toggling that would clear the last enabled
direction of a `MoveCardinal`/`Cloud` tile or the last enabled diagonal of
a `MoveDiagonal` tile does not change the cell, and neither does an arrow
up on `Bounce(1)` or an arrow down on `Bounce(-1)` (the edits that would
push the value outside [-1, 1]). -/
theorem edit_tile_preserves_validity (m : EditingModel) (pos : Nat × Nat)
    (inp : PlayerMovementData) (td : TileData)
    (hget : getCell m.board pos = some td) (hval : td.tile.is_valid = true) :
    ∃ td', getCell (m.edit_tile pos inp).board pos = some td' ∧
      td'.tile.is_valid = true ∧
      (∀ v : Int, td.tile = Tile.Bounce v → -1 ≤ v → v ≤ 1 →
        ∃ v', td'.tile = Tile.Bounce v' ∧ -1 ≤ v' ∧ v' ≤ 1) ∧
      (∀ ku kr kd kl, direction_key_into_bools inp.direction = (ku, kr, kd, kl) →
        (∀ ds, td.tile = Tile.MoveCardinal ds ∨ td.tile = Tile.Cloud ds →
          EditingModel.toggleCardinal ds ku kr kd kl =
            { up := false, right := false, down := false, left := false } →
          td' = td) ∧
        (∀ ds nd, td.tile = Tile.MoveDiagonal ds →
          EditingModel.toggleDiagonal ds ku kr kd kl = some nd →
          nd = { up_right := false, down_right := false, down_left := false,
                 up_left := false } →
          td' = td) ∧
        (∀ v : Int, td.tile = Tile.Bounce v →
          (ku = true → v = 1 → td' = td) ∧ (kd = true → v = -1 → td' = td))) := by
  rcases hk : direction_key_into_bools inp.direction with ⟨ku, kr, kd, kl⟩
  obtain ⟨tile, key⟩ := td
  cases tile with
  | MoveCardinal ds =>
      simp only [EditingModel.edit_tile, hk, hget]
      by_cases hc : (Tile.MoveCardinal (EditingModel.toggleCardinal ds ku kr kd kl)).is_valid = true
      · rw [if_pos hc, getCell_setTileAt_self, hget]
        refine ⟨_, rfl, hc, by intro v hv; simp at hv, ?_⟩
        intro ku' kr' kd' kl' hk'
        simp only [Prod.mk.injEq] at hk'
        obtain ⟨rfl, rfl, rfl, rfl⟩ := hk'
        refine ⟨?_, ?_, ?_⟩
        · intro ds' hds htog
          rcases hds with hds | hds
          · injection hds with hds
            subst hds
            rw [htog] at hc
            exact absurd hc (by decide)
          · exact absurd hds (by simp)
        · intro ds' nd hds _ _
          exact absurd hds (by simp)
        · intro v hv
          exact absurd hv (by simp)
      · rw [if_neg hc]
        exact ⟨_, hget, hval, by intro v hv; simp at hv,
          fun _ _ _ _ _ => ⟨fun _ _ _ => rfl, fun _ _ _ _ _ => rfl,
            fun _ _ => ⟨fun _ _ => rfl, fun _ _ => rfl⟩⟩⟩
  | Cloud ds =>
      simp only [EditingModel.edit_tile, hk, hget]
      by_cases hc : (Tile.Cloud (EditingModel.toggleCardinal ds ku kr kd kl)).is_valid = true
      · rw [if_pos hc, getCell_setTileAt_self, hget]
        refine ⟨_, rfl, hc, by intro v hv; simp at hv, ?_⟩
        intro ku' kr' kd' kl' hk'
        simp only [Prod.mk.injEq] at hk'
        obtain ⟨rfl, rfl, rfl, rfl⟩ := hk'
        refine ⟨?_, ?_, ?_⟩
        · intro ds' hds htog
          rcases hds with hds | hds
          · exact absurd hds (by simp)
          · injection hds with hds
            subst hds
            rw [htog] at hc
            exact absurd hc (by decide)
        · intro ds' nd hds _ _
          exact absurd hds (by simp)
        · intro v hv
          exact absurd hv (by simp)
      · rw [if_neg hc]
        exact ⟨_, hget, hval, by intro v hv; simp at hv,
          fun _ _ _ _ _ => ⟨fun _ _ _ => rfl, fun _ _ _ _ _ => rfl,
            fun _ _ => ⟨fun _ _ => rfl, fun _ _ => rfl⟩⟩⟩
  | MoveDiagonal ds =>
      simp only [EditingModel.edit_tile, hk, hget]
      cases hnd : EditingModel.toggleDiagonal ds ku kr kd kl with
      | none =>
          exact ⟨_, hget, hval, by intro v hv; simp at hv,
            fun _ _ _ _ _ => ⟨fun _ _ _ => rfl, fun _ _ _ _ _ => rfl,
              fun _ _ => ⟨fun _ _ => rfl, fun _ _ => rfl⟩⟩⟩
      | some nd =>
          dsimp only
          by_cases hc : (Tile.MoveDiagonal nd).is_valid = true
          · rw [if_pos hc, getCell_setTileAt_self, hget]
            refine ⟨_, rfl, hc, by intro v hv; simp at hv, ?_⟩
            intro ku' kr' kd' kl' hk'
            simp only [Prod.mk.injEq] at hk'
            obtain ⟨rfl, rfl, rfl, rfl⟩ := hk'
            refine ⟨?_, ?_, ?_⟩
            · intro ds' hds _
              rcases hds with hds | hds <;> exact absurd hds (by simp)
            · intro ds' nd' hds htog hall
              injection hds with hds
              subst hds
              rw [hnd] at htog
              injection htog with htog
              subst htog
              rw [hall] at hc
              exact absurd hc (by decide)
            · intro v hv
              exact absurd hv (by simp)
          · rw [if_neg hc]
            exact ⟨_, hget, hval, by intro v hv; simp at hv,
              fun _ _ _ _ _ => ⟨fun _ _ _ => rfl, fun _ _ _ _ _ => rfl,
                fun _ _ => ⟨fun _ _ => rfl, fun _ _ => rfl⟩⟩⟩
  | Bounce val =>
      simp only [EditingModel.edit_tile, hk, hget]
      by_cases h1 : (ku && decide (val < 1)) = true
      · rw [if_pos h1, getCell_setTileAt_self, hget]
        have h1' := h1
        simp only [Bool.and_eq_true, decide_eq_true_eq] at h1'
        refine ⟨_, rfl, rfl, ?_, ?_⟩
        · intro v hv hlo hhi
          injection hv with hv
          subst hv
          exact ⟨val + 1, rfl, by omega, by omega⟩
        · intro ku' kr' kd' kl' hk'
          simp only [Prod.mk.injEq] at hk'
          obtain ⟨rfl, rfl, rfl, rfl⟩ := hk'
          refine ⟨?_, ?_, ?_⟩
          · intro ds' hds _
            rcases hds with hds | hds <;> exact absurd hds (by simp)
          · intro ds' nd hds _ _
            exact absurd hds (by simp)
          · intro v hv
            injection hv with hv
            subst hv
            constructor
            · intro _ hv1
              exact absurd hv1 (by omega)
            · intro hkd _
              exact absurd ⟨h1'.1, hkd⟩
                (direction_key_into_bools_no_opposite inp.direction ku kr kd kl hk)
      · rw [if_neg h1]
        by_cases h2 : (kd && decide (val > -1)) = true
        · rw [if_pos h2, getCell_setTileAt_self, hget]
          have h2' := h2
          simp only [Bool.and_eq_true, decide_eq_true_eq] at h2'
          refine ⟨_, rfl, rfl, ?_, ?_⟩
          · intro v hv hlo hhi
            injection hv with hv
            subst hv
            exact ⟨val - 1, rfl, by omega, by omega⟩
          · intro ku' kr' kd' kl' hk'
            simp only [Prod.mk.injEq] at hk'
            obtain ⟨rfl, rfl, rfl, rfl⟩ := hk'
            refine ⟨?_, ?_, ?_⟩
            · intro ds' hds _
              rcases hds with hds | hds <;> exact absurd hds (by simp)
            · intro ds' nd hds _ _
              exact absurd hds (by simp)
            · intro v hv
              injection hv with hv
              subst hv
              constructor
              · intro hku _
                exact absurd ⟨hku, h2'.1⟩
                  (direction_key_into_bools_no_opposite inp.direction ku kr kd kl hk)
              · intro _ hvm1
                exact absurd hvm1 (by omega)
        · rw [if_neg h2]
          refine ⟨_, hget, rfl, ?_, ?_⟩
          · intro v hv hlo hhi
            injection hv with hv
            subst hv
            exact ⟨val, rfl, hlo, hhi⟩
          · exact fun _ _ _ _ _ => ⟨fun _ _ _ => rfl, fun _ _ _ _ _ => rfl,
              fun _ _ => ⟨fun _ _ => rfl, fun _ _ => rfl⟩⟩
  | Portal c link =>
      simp only [EditingModel.edit_tile, hk, hget]
      by_cases h1 : ku = true
      · rw [if_pos h1, getCell_setTileAt_self, hget]
        refine ⟨_, rfl, rfl, by intro v hv; simp at hv, ?_⟩
        exact fun _ _ _ _ _ =>
          ⟨fun ds' hds _ => absurd hds (by simp),
           fun ds' nd hds _ _ => absurd hds (by simp),
           fun v hv => absurd hv (by simp)⟩
      · rw [if_neg h1]
        by_cases h2 : kd = true
        · rw [if_pos h2, getCell_setTileAt_self, hget]
          refine ⟨_, rfl, rfl, by intro v hv; simp at hv, ?_⟩
          exact fun _ _ _ _ _ =>
            ⟨fun ds' hds _ => absurd hds (by simp),
             fun ds' nd hds _ _ => absurd hds (by simp),
             fun v hv => absurd hv (by simp)⟩
        · rw [if_neg h2]
          exact ⟨_, hget, rfl, by intro v hv; simp at hv,
            fun _ _ _ _ _ => ⟨fun _ _ _ => rfl, fun _ _ _ _ _ => rfl,
              fun _ _ => ⟨fun _ _ => rfl, fun _ _ => rfl⟩⟩⟩
  | Empty =>
      simp only [EditingModel.edit_tile, hk, hget]
      exact ⟨_, rfl, rfl, by intro v hv; simp at hv,
        fun _ _ _ _ _ => ⟨fun _ _ _ => rfl, fun _ _ _ _ _ => rfl,
          fun _ _ => ⟨fun _ _ => rfl, fun _ _ => rfl⟩⟩⟩
  | Water =>
      simp only [EditingModel.edit_tile, hk, hget]
      exact ⟨_, rfl, rfl, by intro v hv; simp at hv,
        fun _ _ _ _ _ => ⟨fun _ _ _ => rfl, fun _ _ _ _ _ => rfl,
          fun _ _ => ⟨fun _ _ => rfl, fun _ _ => rfl⟩⟩⟩
  | Ice =>
      simp only [EditingModel.edit_tile, hk, hget]
      exact ⟨_, rfl, rfl, by intro v hv; simp at hv,
        fun _ _ _ _ _ => ⟨fun _ _ _ => rfl, fun _ _ _ _ _ => rfl,
          fun _ _ => ⟨fun _ _ => rfl, fun _ _ => rfl⟩⟩⟩
  | Door =>
      simp only [EditingModel.edit_tile, hk, hget]
      exact ⟨_, rfl, rfl, by intro v hv; simp at hv,
        fun _ _ _ _ _ => ⟨fun _ _ _ => rfl, fun _ _ _ _ _ => rfl,
          fun _ _ => ⟨fun _ _ => rfl, fun _ _ => rfl⟩⟩⟩
  | Wall =>
      simp only [EditingModel.edit_tile, hk, hget]
      exact ⟨_, rfl, rfl, by intro v hv; simp at hv,
        fun _ _ _ _ _ => ⟨fun _ _ _ => rfl, fun _ _ _ _ _ => rfl,
          fun _ _ => ⟨fun _ _ => rfl, fun _ _ => rfl⟩⟩⟩
  | StartSpace =>
      simp only [EditingModel.edit_tile, hk, hget]
      exact ⟨_, rfl, rfl, by intro v hv; simp at hv,
        fun _ _ _ _ _ => ⟨fun _ _ _ => rfl, fun _ _ _ _ _ => rfl,
          fun _ _ => ⟨fun _ _ => rfl, fun _ _ => rfl⟩⟩⟩
  | EndSpace =>
      simp only [EditingModel.edit_tile, hk, hget]
      exact ⟨_, rfl, rfl, by intro v hv; simp at hv,
        fun _ _ _ _ _ => ⟨fun _ _ _ => rfl, fun _ _ _ _ _ => rfl,
          fun _ _ => ⟨fun _ _ => rfl, fun _ _ => rfl⟩⟩⟩

/-- C6 witness: the theorem evaluated on a concrete model where the edit
(arrow up) would clear the last enabled direction of a `MoveCardinal`
tile; the conclusion includes that such a rejected edit leaves the cell
unchanged. -/
theorem edit_tile_preserves_validity_witness :
    ∃ td', getCell (c6Model.edit_tile (0, 0)
        { direction := DirectionKey.Up, move_speed := 1, use_tile := false }).board
        (0, 0) = some td' ∧
      td'.tile.is_valid = true ∧
      (∀ v : Int, (Tile.MoveCardinal
          { up := true, right := false, down := false, left := false }) = Tile.Bounce v →
        -1 ≤ v → v ≤ 1 →
        ∃ v', td'.tile = Tile.Bounce v' ∧ -1 ≤ v' ∧ v' ≤ 1) ∧
      (∀ ku kr kd kl, direction_key_into_bools DirectionKey.Up = (ku, kr, kd, kl) →
        (∀ ds, (Tile.MoveCardinal
            { up := true, right := false, down := false, left := false }) =
              Tile.MoveCardinal ds ∨
          (Tile.MoveCardinal
            { up := true, right := false, down := false, left := false }) =
              Tile.Cloud ds →
          EditingModel.toggleCardinal ds ku kr kd kl =
            { up := false, right := false, down := false, left := false } →
          td' = { tile := Tile.MoveCardinal
                    { up := true, right := false, down := false, left := false }
                  key := KeyItem.None }) ∧
        (∀ ds nd, (Tile.MoveCardinal
            { up := true, right := false, down := false, left := false }) =
              Tile.MoveDiagonal ds →
          EditingModel.toggleDiagonal ds ku kr kd kl = some nd →
          nd = { up_right := false, down_right := false, down_left := false,
                 up_left := false } →
          td' = { tile := Tile.MoveCardinal
                    { up := true, right := false, down := false, left := false }
                  key := KeyItem.None }) ∧
        (∀ v : Int, (Tile.MoveCardinal
            { up := true, right := false, down := false, left := false }) =
              Tile.Bounce v →
          (ku = true → v = 1 →
            td' = { tile := Tile.MoveCardinal
                      { up := true, right := false, down := false, left := false }
                    key := KeyItem.None }) ∧
          (kd = true → v = -1 →
            td' = { tile := Tile.MoveCardinal
                      { up := true, right := false, down := false, left := false }
                    key := KeyItem.None }))) :=
  edit_tile_preserves_validity c6Model (0, 0)
    { direction := DirectionKey.Up, move_speed := 1, use_tile := false }
    { tile := Tile.MoveCardinal
        { up := true, right := false, down := false, left := false }
      key := KeyItem.None }
    (by decide) (by decide)

/-! ## Lemmas about the portal-collection scan -/

theorem portalLetter_eq_some (t : Tile) (ch : Char) :
    portalLetter t = some ch ↔ ∃ l, t = Tile.Portal ch l := by
  cases t <;> simp [portalLetter]

theorem mem_rowPortals (ch : Char) (q : Nat × Nat) (r : Nat) (row : List TileData) :
    ∀ i : Nat,
    ((ch, q) ∈ rowPortals r i row ↔
      q.1 = r ∧ ∃ j td, q.2 = i + j ∧ row[j]? = some td ∧
        portalLetter td.tile = some ch) := by
  induction row with
  | nil => intro i; simp [rowPortals]
  | cons td0 rest ih =>
      intro i
      cases hp : portalLetter td0.tile with
      | none =>
          simp only [rowPortals, hp, ih (i + 1)]
          constructor
          · rintro ⟨hr, j, td, hc, hj, hl⟩
            exact ⟨hr, j + 1, td, by omega, by simpa using hj, hl⟩
          · rintro ⟨hr, j, td, hc, hj, hl⟩
            cases j with
            | zero =>
                simp only [List.getElem?_cons_zero, Option.some.injEq] at hj
                subst hj
                rw [hp] at hl
                exact absurd hl (by simp)
            | succ j =>
                simp only [List.getElem?_cons_succ] at hj
                exact ⟨hr, j, td, by omega, hj, hl⟩
      | some ch0 =>
          simp only [rowPortals, hp, List.mem_cons, ih (i + 1)]
          constructor
          · rintro (heq | ⟨hr, j, td, hc, hj, hl⟩)
            · obtain ⟨q1, q2⟩ := q
              injection heq with h1 h2
              injection h2 with h2a h2b
              subst h1
              exact ⟨h2a, 0, td0, by omega, by simp, by rw [hp]⟩
            · exact ⟨hr, j + 1, td, by omega, by simpa using hj, hl⟩
          · rintro ⟨hr, j, td, hc, hj, hl⟩
            cases j with
            | zero =>
                simp only [List.getElem?_cons_zero, Option.some.injEq] at hj
                subst hj
                rw [hp] at hl
                injection hl with hl
                subst hl
                left
                obtain ⟨q1, q2⟩ := q
                simp_all
            | succ j =>
                simp only [List.getElem?_cons_succ] at hj
                exact Or.inr ⟨hr, j, td, by omega, hj, hl⟩

theorem mem_collectAux (ch : Char) (q : Nat × Nat) (b : Board) :
    ∀ r : Nat,
    ((ch, q) ∈ collectAux r b ↔
      ∃ j row td, q.1 = r + j ∧ b[j]? = some row ∧ row[q.2]? = some td ∧
        portalLetter td.tile = some ch) := by
  induction b with
  | nil => intro r; simp [collectAux]
  | cons row0 rest ih =>
      intro r
      simp only [collectAux, List.mem_append, mem_rowPortals, ih (r + 1)]
      constructor
      · rintro (⟨hr, j, td, hc, hj, hl⟩ | ⟨j, row, td, hr, hj, hc, hl⟩)
        · refine ⟨0, row0, td, by omega, by simp, ?_, hl⟩
          have : q.2 = j := by omega
          rw [this]; exact hj
        · exact ⟨j + 1, row, td, by omega, by simpa using hj, hc, hl⟩
      · rintro ⟨j, row, td, hr, hj, hc, hl⟩
        cases j with
        | zero =>
            simp only [List.getElem?_cons_zero, Option.some.injEq] at hj
            subst hj
            exact Or.inl ⟨by omega, q.2, td, by omega, hc, hl⟩
        | succ j =>
            simp only [List.getElem?_cons_succ] at hj
            exact Or.inr ⟨j, row, td, by omega, hj, hc, hl⟩

theorem mem_collectPortals (ch : Char) (p : Nat × Nat) (b : Board) :
    (ch, p) ∈ collectPortals b ↔
      ∃ td, getCell b p = some td ∧ portalLetter td.tile = some ch := by
  rw [collectPortals, mem_collectAux]
  simp only [getCell, List.get?_eq_getElem?, Option.bind_eq_some, Nat.zero_add]
  constructor
  · rintro ⟨j, row, td, hr, hj, hc, hl⟩
    exact ⟨td, ⟨row, by rw [hr]; exact hj, hc⟩, hl⟩
  · rintro ⟨td, ⟨row, hj, hc⟩, hl⟩
    exact ⟨p.1, row, td, rfl, hj, hc, hl⟩

theorem mem_positionsOf (portals : List (Char × (Nat × Nat))) (ch : Char)
    (p : Nat × Nat) : p ∈ positionsOf portals ch ↔ (ch, p) ∈ portals := by
  simp only [positionsOf, List.mem_filterMap]
  constructor
  · rintro ⟨⟨c0, p0⟩, hm, hf⟩
    by_cases hc : c0 = ch
    · subst hc
      simp at hf
      subst hf
      exact hm
    · simp [hc] at hf
  · intro hm
    exact ⟨(ch, p), hm, by simp⟩

/-! ## The collection scan is unchanged by letter-preserving portal writes -/

theorem rowPortals_modifyAt (r : Nat) (row : List TileData) :
    ∀ (i c : Nat) (td : TileData) (ch : Char) (l : Nat × Nat),
    row[c]? = some td → portalLetter td.tile = some ch →
    rowPortals r i (modifyAt (fun td => { td with tile := Tile.Portal ch l }) c row) =
      rowPortals r i row := by
  induction row with
  | nil => intro i c td ch l h; simp at h
  | cons td0 rest ih =>
      intro i c td ch l hc hl
      cases c with
      | zero =>
          simp only [List.getElem?_cons_zero, Option.some.injEq] at hc
          subst hc
          simp only [modifyAt, rowPortals]
          rw [hl]
          rfl
      | succ c =>
          simp only [List.getElem?_cons_succ] at hc
          simp only [modifyAt, rowPortals]
          cases hp : portalLetter td0.tile <;>
            simp only [ih (i + 1) c td ch l hc hl]

theorem collectAux_setTileAt (b : Board) :
    ∀ (r : Nat) (p : Nat × Nat) (td : TileData) (ch : Char) (l : Nat × Nat),
    getCell b p = some td → portalLetter td.tile = some ch →
    collectAux r (setTileAt b p (Tile.Portal ch l)) = collectAux r b := by
  induction b with
  | nil => intro r p td ch l h; simp [getCell] at h
  | cons row0 rest ih =>
      intro r p td ch l hcell hl
      obtain ⟨p1, p2⟩ := p
      cases p1 with
      | zero =>
          simp only [getCell, List.get?_eq_getElem?, List.getElem?_cons_zero,
            Option.some_bind] at hcell
          simp only [setTileAt, modifyAt, collectAux]
          rw [rowPortals_modifyAt r row0 0 p2 td ch l hcell hl]
      | succ p1 =>
          simp only [getCell, List.get?_eq_getElem?, List.getElem?_cons_succ] at hcell
          simp only [setTileAt, modifyAt, collectAux]
          have := ih (r + 1) (p1, p2) td ch l (by
            simpa [getCell, List.get?_eq_getElem?] using hcell) hl
          simp only [setTileAt] at this
          rw [this]

theorem collectPortals_setTileAt (b : Board) (p : Nat × Nat) (td : TileData)
    (ch : Char) (l : Nat × Nat) (hcell : getCell b p = some td)
    (hl : portalLetter td.tile = some ch) :
    collectPortals (setTileAt b p (Tile.Portal ch l)) = collectPortals b :=
  collectAux_setTileAt b 0 p td ch l hcell hl

/-! ## Identity writes -/

theorem modifyAt_eq_self {α : Type} (f : α → α) :
    ∀ (n : Nat) (l : List α), (∀ a, l[n]? = some a → f a = a) →
    modifyAt f n l = l := by
  intro n l
  induction l generalizing n with
  | nil => intro h; simp [modifyAt]
  | cons a as ih =>
      intro h
      cases n with
      | zero =>
          simp only [modifyAt]
          rw [h a (by simp)]
      | succ n =>
          simp only [modifyAt]
          rw [ih n fun a' ha' => h a' (by simpa using ha')]

theorem setTileAt_eq_self (b : Board) (p : Nat × Nat) (t : Tile) (td : TileData)
    (hcell : getCell b p = some td) (ht : td.tile = t) :
    setTileAt b p t = b := by
  obtain ⟨p1, p2⟩ := p
  simp only [getCell, List.get?_eq_getElem?] at hcell
  cases hrow : b[p1]? with
  | none => rw [hrow] at hcell; simp at hcell
  | some row =>
      rw [hrow] at hcell
      simp only [Option.some_bind] at hcell
      unfold setTileAt
      apply modifyAt_eq_self
      intro row' hrow'
      rw [hrow] at hrow'
      injection hrow' with hrow'
      subst hrow'
      apply modifyAt_eq_self
      intro a ha
      rw [hcell] at ha
      injection ha with ha
      subst ha
      rw [← ht]

/-! ## Cell-wise characterisation of the validity scan -/

theorem allValid_iff (b : Board) :
    allValid b = true ↔
      ∀ p td, getCell b p = some td → td.tile.is_valid = true := by
  unfold allValid
  rw [List.all_eq_true]
  constructor
  · intro h p td hcell
    obtain ⟨p1, p2⟩ := p
    simp only [getCell] at hcell
    cases hrow : b.get? p1 with
    | none => rw [hrow] at hcell; simp at hcell
    | some row =>
        rw [hrow] at hcell
        simp only [Option.some_bind] at hcell
        have hrmem : row ∈ b := List.get?_mem hrow
        have hall := h row hrmem
        rw [List.all_eq_true] at hall
        exact hall td (List.get?_mem hcell)
  · intro h row hrow
    rw [List.all_eq_true]
    intro td htd
    obtain ⟨i, hi⟩ := List.get?_of_mem hrow
    obtain ⟨j, hj⟩ := List.get?_of_mem htd
    exact h (i, j) td (by simp only [getCell, hi, Option.some_bind, hj])

/-! ## Pointwise description of the portal cross-linking loop -/

theorem linkAll_spec (CP : List (Char × (Nat × Nat))) (b₀ : Board)
    (hmem : ∀ ch p, (ch, p) ∈ CP →
      ∃ td, getCell b₀ p = some td ∧ portalLetter td.tile = some ch) :
    ∀ (L : List Char) (b : Board), L.Nodup →
    (∀ ch, ch ∈ L → ∃ p0 p1, positionsOf CP ch = [p0, p1]) →
    (∀ ch, ch ∈ L → ∀ p, p ∈ positionsOf CP ch → getCell b p = getCell b₀ p) →
    ((∀ ch, ch ∈ L → ∀ p0 p1, positionsOf CP ch = [p0, p1] →
        getCell (linkAll CP L b) p0 =
          (getCell b₀ p0).map (fun td => { td with tile := Tile.Portal ch p1 }) ∧
        getCell (linkAll CP L b) p1 =
          (getCell b₀ p1).map (fun td => { td with tile := Tile.Portal ch p0 })) ∧
     (∀ p, (∀ ch, ch ∈ L → p ∉ positionsOf CP ch) →
        getCell (linkAll CP L b) p = getCell b p) ∧
     collectPortals (linkAll CP L b) = collectPortals b) := by
  intro L
  induction L with
  | nil =>
      intro b _ _ _
      refine ⟨?_, ?_, rfl⟩
      · intro ch hch; simp at hch
      · intro p _; rfl
  | cons ch L' ih =>
      intro b hnd hL hagree
      obtain ⟨hchL', hndL'⟩ := List.nodup_cons.1 hnd
      obtain ⟨p0, p1, e2⟩ := hL ch (by simp)
      have hp0pos : p0 ∈ positionsOf CP ch := by rw [e2]; simp
      have hp1pos : p1 ∈ positionsOf CP ch := by rw [e2]; simp
      have hp0CP : (ch, p0) ∈ CP := (mem_positionsOf _ _ _).1 hp0pos
      have hp1CP : (ch, p1) ∈ CP := (mem_positionsOf _ _ _).1 hp1pos
      obtain ⟨td0, htd0, hl0⟩ := hmem ch p0 hp0CP
      obtain ⟨td1, htd1, hl1⟩ := hmem ch p1 hp1CP
      have hcb0 : getCell b p0 = some td0 := by
        rw [hagree ch (by simp) p0 hp0pos]; exact htd0
      have hcb1 : getCell b p1 = some td1 := by
        rw [hagree ch (by simp) p1 hp1pos]; exact htd1
      have huniq : ∀ ch' p, (ch', p) ∈ CP → (ch, p) ∈ CP → ch' = ch := by
        intro ch' p h1 h2
        obtain ⟨td, htd, hl⟩ := hmem ch' p h1
        obtain ⟨td', htd', hl'⟩ := hmem ch p h2
        rw [htd] at htd'
        injection htd' with htd'
        subst htd'
        rw [hl] at hl'
        exact Option.some.inj hl'
      have hstep : linkAll CP (ch :: L') b = linkAll CP L' (linkLetter CP ch b) := rfl
      have hlinkeq : linkLetter CP ch b =
          setTileAt (setTileAt b p0 (Tile.Portal ch p1)) p1 (Tile.Portal ch p0) := by
        unfold linkLetter; rw [e2]
      have hcell0 : getCell (linkLetter CP ch b) p0 =
          some { td0 with tile := Tile.Portal ch p1 } := by
        by_cases hpp : p1 = p0
        · subst hpp
          rw [hlinkeq, getCell_setTileAt_self, getCell_setTileAt_self, hcb0]
          rfl
        · rw [hlinkeq, getCell_setTileAt_ne _ _ _ _ fun h => hpp h.symm,
            getCell_setTileAt_self, hcb0]
          rfl
      have hcell1 : getCell (linkLetter CP ch b) p1 =
          some { td1 with tile := Tile.Portal ch p0 } := by
        have htd01 : td1 = td0 ∨ p1 ≠ p0 := by
          by_cases hpp : p1 = p0
          · left
            rw [hpp, hcb0] at hcb1
            injection hcb1 with h
            exact h.symm
          · exact Or.inr hpp
        by_cases hpp : p1 = p0
        · rcases htd01 with h01 | h01
          · subst h01
            subst hpp
            rw [hlinkeq, getCell_setTileAt_self, getCell_setTileAt_self, hcb1]
            rfl
          · exact absurd hpp h01
        · rw [hlinkeq, getCell_setTileAt_self, getCell_setTileAt_ne _ _ _ _ hpp, hcb1]
          rfl
      have hagreestep : ∀ ch', ch' ∈ L' → ∀ p, p ∈ positionsOf CP ch' →
          getCell (linkLetter CP ch b) p = getCell b₀ p := by
        intro ch' hch' p hppos
        have hne : ch' ≠ ch := fun h => hchL' (h ▸ hch')
        have hpCP : (ch', p) ∈ CP := (mem_positionsOf _ _ _).1 hppos
        have hpp0 : p ≠ p0 := by
          intro h; subst h
          exact hne (huniq ch' p hpCP hp0CP)
        have hpp1 : p ≠ p1 := by
          intro h; subst h
          exact hne (huniq ch' p hpCP hp1CP)
        rw [hlinkeq, getCell_setTileAt_ne _ _ _ _ hpp1, getCell_setTileAt_ne _ _ _ _ hpp0]
        exact hagree ch' (List.mem_cons_of_mem _ hch') p hppos
      obtain ⟨ihA, ihB, ihC⟩ := ih (linkLetter CP ch b) hndL'
        (fun ch' h => hL ch' (List.mem_cons_of_mem _ h)) hagreestep
      refine ⟨?_, ?_, ?_⟩
      · intro ch' hch' q0 q1 he
        rcases List.mem_cons.1 hch' with hcc | hch'
        · subst hcc
          rw [e2] at he
          have hq0 : q0 = p0 := by
            injection he with h1 _
            exact h1.symm
          have hq1 : q1 = p1 := by
            injection he with _ he'
            injection he' with h2 _
            exact h2.symm
          subst hq0
          subst hq1
          have hnotpos0 : ∀ ch'', ch'' ∈ L' → q0 ∉ positionsOf CP ch'' := by
            intro ch'' hch'' hmem'
            have hcc2 : ch'' = ch' := huniq ch'' q0 ((mem_positionsOf _ _ _).1 hmem') hp0CP
            exact hchL' (hcc2 ▸ hch'')
          have hnotpos1 : ∀ ch'', ch'' ∈ L' → q1 ∉ positionsOf CP ch'' := by
            intro ch'' hch'' hmem'
            have hcc2 : ch'' = ch' := huniq ch'' q1 ((mem_positionsOf _ _ _).1 hmem') hp1CP
            exact hchL' (hcc2 ▸ hch'')
          constructor
          · rw [hstep, ihB q0 hnotpos0, hcell0, htd0]
            rfl
          · rw [hstep, ihB q1 hnotpos1, hcell1, htd1]
            rfl
        · have := ihA ch' hch' q0 q1 he
          rw [hstep]
          exact this
      · intro p hnp
        have hnp' : ∀ ch'', ch'' ∈ L' → p ∉ positionsOf CP ch'' :=
          fun ch'' h => hnp ch'' (List.mem_cons_of_mem _ h)
        have hpp0 : p ≠ p0 := fun h => (hnp ch (by simp)) (h ▸ hp0pos)
        have hpp1 : p ≠ p1 := fun h => (hnp ch (by simp)) (h ▸ hp1pos)
        rw [hstep, ihB p hnp', hlinkeq, getCell_setTileAt_ne _ _ _ _ hpp1,
          getCell_setTileAt_ne _ _ _ _ hpp0]
      · rw [hstep, ihC, hlinkeq]
        have hinner : collectPortals (setTileAt b p0 (Tile.Portal ch p1)) =
            collectPortals b :=
          collectPortals_setTileAt b p0 td0 ch p1 hcb0 hl0
        by_cases hpp : p1 = p0
        · subst hpp
          have hcellmid : getCell (setTileAt b p1 (Tile.Portal ch p1)) p1 =
              some { td0 with tile := Tile.Portal ch p1 } := by
            rw [getCell_setTileAt_self, hcb0]
            rfl
          rw [collectPortals_setTileAt (setTileAt b p1 (Tile.Portal ch p1)) p1
            { td0 with tile := Tile.Portal ch p1 } ch p1 hcellmid rfl, hinner]
        · have hcellmid : getCell (setTileAt b p0 (Tile.Portal ch p1)) p1 =
              some td1 := by
            rw [getCell_setTileAt_ne _ _ _ _ hpp]
            exact hcb1
          rw [collectPortals_setTileAt (setTileAt b p0 (Tile.Portal ch p1)) p1
            td1 ch p0 hcellmid hl1, hinner]

/-! ## Running board_is_playable -/

theorem board_is_playable_run (m : EditingModel)
    (hs : m.start_pos.isSome = true) (he : m.end_pos.isSome = true)
    (hv : allValid m.board = true)
    (hall : ((portalLetters (collectPortals m.board)).all fun ch =>
      (positionsOf (collectPortals m.board) ch).length == 2) = true) :
    m.board_is_playable =
      (true,
        { m with
          board :=
            linkAll (collectPortals m.board) (portalLetters (collectPortals m.board))
              m.board }) := by
  unfold EditingModel.board_is_playable
  rw [if_neg (by simp [hs, he]), if_neg (by simp [hv]), if_neg (by simp [hall])]

theorem board_is_playable_true_elim (m : EditingModel)
    (h : (m.board_is_playable).1 = true) :
    m.start_pos.isSome = true ∧ m.end_pos.isSome = true ∧
    allValid m.board = true ∧
    ((portalLetters (collectPortals m.board)).all fun ch =>
      (positionsOf (collectPortals m.board) ch).length == 2) = true := by
  unfold EditingModel.board_is_playable at h
  by_cases h1 : (!(m.start_pos.isSome && m.end_pos.isSome)) = true
  · rw [if_pos h1] at h; simp at h
  · rw [if_neg h1] at h
    by_cases h2 : (!allValid m.board) = true
    · rw [if_pos h2] at h; simp at h
    · rw [if_neg h2] at h
      by_cases h3 : (!((portalLetters (collectPortals m.board)).all fun ch =>
          (positionsOf (collectPortals m.board) ch).length == 2)) = true
      · rw [if_pos h3] at h; simp at h
      · have e1 : (m.start_pos.isSome && m.end_pos.isSome) = true := by
          cases hx : (m.start_pos.isSome && m.end_pos.isSome) with
          | true => rfl
          | false => exact absurd (by rw [hx]; rfl) h1
        have e2v : allValid m.board = true := by
          cases hx : allValid m.board with
          | true => rfl
          | false => exact absurd (by rw [hx]; rfl) h2
        have e3 : ((portalLetters (collectPortals m.board)).all fun ch =>
            (positionsOf (collectPortals m.board) ch).length == 2) = true := by
          cases hx : ((portalLetters (collectPortals m.board)).all fun ch =>
              (positionsOf (collectPortals m.board) ch).length == 2) with
          | true => rfl
          | false => exact absurd (by rw [hx]; rfl) h3
        simp only [Bool.and_eq_true] at e1
        exact ⟨e1.1, e1.2, e2v, e3⟩

theorem length_two_of_all_check (m : EditingModel)
    (hall : ((portalLetters (collectPortals m.board)).all fun ch =>
      (positionsOf (collectPortals m.board) ch).length == 2) = true) :
    ∀ ch, ch ∈ portalLetters (collectPortals m.board) →
      ∃ p0 p1, positionsOf (collectPortals m.board) ch = [p0, p1] := by
  intro ch hch
  have hlen := List.all_eq_true.1 hall ch hch
  have : (positionsOf (collectPortals m.board) ch).length = 2 := by
    simpa using hlen
  exact List.length_eq_two.1 this

/-! ## The linking loop is a no-op on an already-linked board -/

theorem linkAll_id (CP : List (Char × (Nat × Nat))) :
    ∀ (L : List Char) (b : Board),
    (∀ ch, ch ∈ L → ∃ p0 p1, positionsOf CP ch = [p0, p1] ∧
      (∃ td, getCell b p0 = some td ∧ td.tile = Tile.Portal ch p1) ∧
      (∃ td, getCell b p1 = some td ∧ td.tile = Tile.Portal ch p0)) →
    linkAll CP L b = b := by
  intro L
  induction L with
  | nil => intro b _; rfl
  | cons ch L' ih =>
      intro b hb
      obtain ⟨p0, p1, e2, ⟨td0, h0, ht0⟩, ⟨td1, h1, ht1⟩⟩ := hb ch (by simp)
      have hstep : linkAll CP (ch :: L') b = linkAll CP L' (linkLetter CP ch b) := rfl
      have hll : linkLetter CP ch b = b := by
        unfold linkLetter
        rw [e2]
        show setTileAt (setTileAt b p0 (Tile.Portal ch p1)) p1 (Tile.Portal ch p0) = b
        rw [setTileAt_eq_self b p0 _ td0 h0 ht0, setTileAt_eq_self b p1 _ td1 h1 ht1]
      rw [hstep, hll]
      exact ih b (fun ch' h => hb ch' (List.mem_cons_of_mem _ h))

/-! ## C1 -/

/-- C1: whenever `board_is_playable` returns true, every `Portal` tile of
the resulting board stores a link coordinate that points to a cell holding
a `Portal` with the same letter, and that cell's own link coordinate
points back to the first cell (the two portals of each letter are
mutually cross-linked). -/
theorem portal_links_symmetric_after_board_is_playable
    (m : EditingModel) (h : (m.board_is_playable).1 = true)
    (p : Nat × Nat) (ch : Char) (l : Nat × Nat) (td : TileData)
    (hcell : getCell (m.board_is_playable).2.board p = some td)
    (htile : td.tile = Tile.Portal ch l) :
    ∃ td', getCell (m.board_is_playable).2.board l = some td' ∧
      td'.tile = Tile.Portal ch p := by
  obtain ⟨hs, he, hv, hall⟩ := board_is_playable_true_elim m h
  rw [board_is_playable_run m hs he hv hall] at hcell ⊢
  dsimp only at hcell ⊢
  have hmem : ∀ ch' p', (ch', p') ∈ collectPortals m.board →
      ∃ td, getCell m.board p' = some td ∧ portalLetter td.tile = some ch' :=
    fun ch' p' hp' => (mem_collectPortals ch' p' m.board).1 hp'
  have hL2 := length_two_of_all_check m hall
  have hnd : (portalLetters (collectPortals m.board)).Nodup := List.nodup_dedup _
  obtain ⟨hA, hB, -⟩ := linkAll_spec (collectPortals m.board) m.board hmem
    (portalLetters (collectPortals m.board)) m.board hnd hL2 (fun _ _ _ _ => rfl)
  by_cases hp : ∀ ch', ch' ∈ portalLetters (collectPortals m.board) →
      p ∉ positionsOf (collectPortals m.board) ch'
  · rw [hB p hp] at hcell
    have hpCP : (ch, p) ∈ collectPortals m.board :=
      (mem_collectPortals ch p m.board).2 ⟨td, hcell, by rw [htile]; rfl⟩
    have hchL : ch ∈ portalLetters (collectPortals m.board) :=
      List.mem_dedup.2 (List.mem_map.2 ⟨(ch, p), hpCP, rfl⟩)
    exact absurd ((mem_positionsOf _ _ _).2 hpCP) (hp ch hchL)
  · push_neg at hp
    obtain ⟨ch', hch'L, hppos⟩ := hp
    obtain ⟨p0, p1, e2⟩ := hL2 ch' hch'L
    have h01 := hA ch' hch'L p0 p1 e2
    have hp0CP : (ch', p0) ∈ collectPortals m.board :=
      (mem_positionsOf _ _ _).1 (by rw [e2]; simp)
    have hp1CP : (ch', p1) ∈ collectPortals m.board :=
      (mem_positionsOf _ _ _).1 (by rw [e2]; simp)
    obtain ⟨td0, htd0, -⟩ := hmem ch' p0 hp0CP
    obtain ⟨td1, htd1, -⟩ := hmem ch' p1 hp1CP
    rw [e2] at hppos
    simp only [List.mem_cons, List.not_mem_nil, or_false] at hppos
    rcases hppos with rfl | rfl
    · rw [h01.1, htd0] at hcell
      injection hcell with hcell
      have htile' : Tile.Portal ch' p1 = Tile.Portal ch l := by
        rw [← htile, ← hcell]
      injection htile' with hch hl
      subst hch
      subst hl
      exact ⟨{ td1 with tile := Tile.Portal ch' p }, by rw [h01.2, htd1]; rfl, rfl⟩
    · rw [h01.2, htd1] at hcell
      injection hcell with hcell
      have htile' : Tile.Portal ch' p0 = Tile.Portal ch l := by
        rw [← htile, ← hcell]
      injection htile' with hch hl
      subst hch
      subst hl
      exact ⟨{ td0 with tile := Tile.Portal ch' p }, by rw [h01.1, htd0]; rfl, rfl⟩


/-- C1 witness: the theorem evaluated on the concrete board; the portal at
(0, 0) got linked to (0, 1), and the cell at (0, 1) links back to (0, 0). -/
theorem portal_links_symmetric_after_board_is_playable_witness :
    ∃ td', getCell (c1Model.board_is_playable).2.board (0, 1) = some td' ∧
      td'.tile = Tile.Portal 'A' (0, 0) :=
  portal_links_symmetric_after_board_is_playable c1Model (by decide) (0, 0) 'A' (0, 1)
    { tile := Tile.Portal 'A' (0, 1), key := KeyItem.None } (by decide) (by decide)

/-! ## C2 -/

/-- C2: if some portal letter occurs on a number of cells different from
two, `board_is_playable` returns false regardless of the other checks, and
the model (in particular its board) is left unchanged: no cross-linking is
performed. -/
theorem board_is_playable_false_on_unpaired_portal_letter
    (m : EditingModel) (ch : Char)
    (hocc : positionsOf (collectPortals m.board) ch ≠ [])
    (hbad : (positionsOf (collectPortals m.board) ch).length ≠ 2) :
    m.board_is_playable = (false, m) := by
  unfold EditingModel.board_is_playable
  by_cases h1 : (!(m.start_pos.isSome && m.end_pos.isSome)) = true
  · rw [if_pos h1]
  · rw [if_neg h1]
    by_cases h2 : (!allValid m.board) = true
    · rw [if_pos h2]
    · rw [if_neg h2]
      have hch : ch ∈ portalLetters (collectPortals m.board) := by
        obtain ⟨p, hp⟩ := List.exists_mem_of_ne_nil _ hocc
        have hpCP : (ch, p) ∈ collectPortals m.board := (mem_positionsOf _ _ _).1 hp
        exact List.mem_dedup.2 (List.mem_map.2 ⟨(ch, p), hpCP, rfl⟩)
      have hallfalse : ((portalLetters (collectPortals m.board)).all fun ch =>
          (positionsOf (collectPortals m.board) ch).length == 2) = false := by
        cases hx : ((portalLetters (collectPortals m.board)).all fun ch =>
            (positionsOf (collectPortals m.board) ch).length == 2) with
        | false => rfl
        | true =>
            have hlen := List.all_eq_true.1 hx ch hch
            exact absurd (by simpa using hlen) hbad
      rw [if_pos (by rw [hallfalse]; rfl)]


/-- C2 witness: the theorem evaluated on the concrete single-portal board:
`board_is_playable` returns false and leaves the model unchanged. -/
theorem board_is_playable_false_on_unpaired_portal_letter_witness :
    c2Model.board_is_playable = (false, c2Model) :=
  board_is_playable_false_on_unpaired_portal_letter c2Model 'A' (by decide) (by decide)

/-! ## C3 -/

/-- C3: `board_is_playable` is idempotent in effect: once it has returned
true, calling it again returns true and leaves the model (every cell,
including the portal link coordinates) exactly as the first call left it. -/
theorem board_is_playable_idempotent (m : EditingModel)
    (h : (m.board_is_playable).1 = true) :
    EditingModel.board_is_playable (m.board_is_playable).2 =
      (true, (m.board_is_playable).2) := by
  obtain ⟨hs, he, hv, hall⟩ := board_is_playable_true_elim m h
  rw [board_is_playable_run m hs he hv hall]
  dsimp only
  have hmem : ∀ ch' p', (ch', p') ∈ collectPortals m.board →
      ∃ td, getCell m.board p' = some td ∧ portalLetter td.tile = some ch' :=
    fun ch' p' hp' => (mem_collectPortals ch' p' m.board).1 hp'
  have hL2 := length_two_of_all_check m hall
  have hnd : (portalLetters (collectPortals m.board)).Nodup := List.nodup_dedup _
  obtain ⟨hA, hB, hC⟩ := linkAll_spec (collectPortals m.board) m.board hmem
    (portalLetters (collectPortals m.board)) m.board hnd hL2 (fun _ _ _ _ => rfl)
  have hv' : allValid (linkAll (collectPortals m.board)
      (portalLetters (collectPortals m.board)) m.board) = true := by
    rw [allValid_iff]
    intro p td hcell
    by_cases hp : ∀ ch', ch' ∈ portalLetters (collectPortals m.board) →
        p ∉ positionsOf (collectPortals m.board) ch'
    · rw [hB p hp] at hcell
      exact (allValid_iff m.board).1 hv p td hcell
    · push_neg at hp
      obtain ⟨ch', hch'L, hppos⟩ := hp
      obtain ⟨p0, p1, e2⟩ := hL2 ch' hch'L
      have h01 := hA ch' hch'L p0 p1 e2
      rw [e2] at hppos
      simp only [List.mem_cons, List.not_mem_nil, or_false] at hppos
      rcases hppos with hpe | hpe
      · rw [hpe] at hcell
        rw [h01.1] at hcell
        cases hcb : getCell m.board p0 with
        | none => rw [hcb] at hcell; simp at hcell
        | some td0 =>
            rw [hcb] at hcell
            injection hcell with hcell
            rw [← hcell]
            rfl
      · rw [hpe] at hcell
        rw [h01.2] at hcell
        cases hcb : getCell m.board p1 with
        | none => rw [hcb] at hcell; simp at hcell
        | some td1 =>
            rw [hcb] at hcell
            injection hcell with hcell
            rw [← hcell]
            rfl
  have hall' : ((portalLetters (collectPortals (linkAll (collectPortals m.board)
      (portalLetters (collectPortals m.board)) m.board))).all fun ch =>
      (positionsOf (collectPortals (linkAll (collectPortals m.board)
        (portalLetters (collectPortals m.board)) m.board)) ch).length == 2) = true := by
    rw [hC]
    exact hall
  have hran := board_is_playable_run
    { m with
      board := linkAll (collectPortals m.board) (portalLetters (collectPortals m.board))
        m.board }
    hs he hv' hall'
  rw [hran]
  have hid : linkAll
      (collectPortals (linkAll (collectPortals m.board)
        (portalLetters (collectPortals m.board)) m.board))
      (portalLetters (collectPortals (linkAll (collectPortals m.board)
        (portalLetters (collectPortals m.board)) m.board)))
      (linkAll (collectPortals m.board) (portalLetters (collectPortals m.board))
        m.board) =
      linkAll (collectPortals m.board) (portalLetters (collectPortals m.board))
        m.board := by
    rw [hC]
    apply linkAll_id
    intro ch' hch'
    obtain ⟨p0, p1, e2⟩ := hL2 ch' hch'
    have h01 := hA ch' hch' p0 p1 e2
    obtain ⟨td0, htd0, -⟩ := hmem ch' p0 ((mem_positionsOf _ _ _).1 (by rw [e2]; simp))
    obtain ⟨td1, htd1, -⟩ := hmem ch' p1 ((mem_positionsOf _ _ _).1 (by rw [e2]; simp))
    exact ⟨p0, p1, e2,
      ⟨{ td0 with tile := Tile.Portal ch' p1 }, by rw [h01.1, htd0]; rfl, rfl⟩,
      ⟨{ td1 with tile := Tile.Portal ch' p0 }, by rw [h01.2, htd1]; rfl, rfl⟩⟩
  rw [hid]


/-- C3 witness: the idempotence theorem evaluated on a concrete playable
board. -/
theorem board_is_playable_idempotent_witness :
    EditingModel.board_is_playable (c3Model.board_is_playable).2 =
      (true, (c3Model.board_is_playable).2) :=
  board_is_playable_idempotent c3Model (by decide)
